import Mathlib

/-!
Verification of the Sia storage-allocation core specification against the
repository's source.

The repository provides two source files: a `contractmanager` benchmark file
(which fixes the data model: 12-byte sector identifiers, the `sectorLocation`
record with `uint32`/`uint16`/`uint16` fields, and the 64-bit-word usage
bitmap sizing) and `siac/walletcmd.go` (which contains the executable
`coinUnits` function).  The contract-manager operations themselves
(`storeSector`, `releaseSector`, `fetchSector`, the bitmap allocator's
`allocate`/`release`) are declared and exercised by the benchmark but their
implementations are not part of the provided sources, so they are modelled
here from the specification's own words, as marked in each doc comment.
-/

namespace Sia

/-! ## The `coinUnits` function, embedded from `src/siac/walletcmd.go`.

Strings are modelled as `List Char`; the Go `(string, error)` return pair is
modelled as `Option (List Char)` with `none` for the error case. -/

/-- The unit suffix table from `coinUnits`:
`units := []string{"pS", "nS", "uS", "mS", "SC", "KS", "MS", "GS", "TS"}`. -/
def units : List (List Char) :=
  [['p','S'], ['n','S'], ['u','S'], ['m','S'], ['S','C'],
   ['K','S'], ['M','S'], ['G','S'], ['T','S']]

/-- One iteration of the `for i, unit := range units` loop of `coinUnits`:
`i` is the index of the first unit in `us`.  On a suffix match it trims the
suffix (`strings.TrimSuffix`), computes `zeros := 27 + 3*(i-3)` (Go `int`
arithmetic, modelled as `Int`), adjusts for a decimal point found by
`strings.IndexByte(base, '.')`, and appends `strings.Repeat("0", zeros)`. -/
def coinUnitsAux : Nat → List (List Char) → List Char → Option (List Char)
  | _, [], amount => some amount
  | i, u :: us, amount =>
    if u.isSuffixOf amount then
      let base := amount.take (amount.length - u.length)
      let zeros : Int := 27 + 3 * ((i : Int) - 3)
      match base.findIdx? (fun c => c = '.') with
      | none => some (base ++ List.replicate zeros.toNat '0')
      | some d =>
        let zeros' : Int := zeros - ((base.length : Int) - (d : Int) - 1)
        if zeros' < 0 then none
        else some (base.take d ++ base.drop (d + 1) ++ List.replicate zeros'.toNat '0')
    else coinUnitsAux (i + 1) us amount

/-- `coinUnits` converts a siacoin amount to base units
(from `src/siac/walletcmd.go`). -/
def coinUnits (amount : List Char) : Option (List Char) :=
  coinUnitsAux 0 units amount

/-! ## Data model, from the `contractmanager` benchmark file.

`ids := make([][12]byte, 24e6)` fixes `sectorID` as a 12-byte array;
`sectorLocation` has fields `index uint32`, `storageFolder uint16`,
`count uint16`.  Machine integers are modelled as `Nat`, reduced mod `2^w`
exactly where the source converts (`uint32(index)`, `uint16(...)`). -/

/-- A sector identifier: 12 bytes (`[12]byte`), i.e. a function from byte
position to byte value. -/
abbrev sectorID := Fin 12 → Fin 256

/-- The `sectorLocation` record of the benchmark file.  Field widths are
enforced at construction (`mkSectorLocation`), not by the types. -/
structure sectorLocation where
  index : Nat
  storageFolder : Nat
  count : Nat
deriving DecidableEq

/-- Construction of a `sectorLocation` as the benchmark performs it:
`sectorLocations[j].index = uint32(index)`,
`sectorLocations[j].storageFolder = uint16(storageFolder)`,
`sectorLocations[j].count = uint16(count)`. -/
def mkSectorLocation (index storageFolder count : Nat) : sectorLocation :=
  { index := index % 2 ^ 32
    storageFolder := storageFolder % 2 ^ 16
    count := count % 2 ^ 16 }

/-- Number of 64-bit words in a usage bitmap for `capacitySlots` slots.
The spec states `capacitySlots` sectors require `ceil(capacitySlots/64)`
words; the benchmark instantiates this as `make([]uint64, 375e3)` for
24e6 sectors. -/
def usageWordCount (capacitySlots : Nat) : Nat :=
  (capacitySlots + 63) / 64

/-! ## Bitmap allocator / storage folder.

Modelled from the spec: the allocator implementation is not among the
provided sources (the benchmark only calls `randFreeSector`), so §4.1 of
the spec is embedded directly.  The bit-per-slot usage array is modelled
as a `List Bool` (`true` = used); randomness is an explicit `Nat`
parameter selecting among the currently free slots. -/

/-- Modelled from the spec: a storage folder's usage bitmap, one bit per
slot, `true` meaning occupied.  The folder's `capacitySlots` is the length
of the bitmap. -/
structure Folder where
  usage : List Bool
deriving DecidableEq

namespace Folder

/-- The folder's fixed slot capacity. -/
def capacity (f : Folder) : Nat := f.usage.length

/-- Whether slot `i` is marked used (out-of-range slots are not used). -/
def slotUsed (f : Folder) (i : Nat) : Bool := f.usage.getD i false

/-- Number of set (used) bits in the bitmap. -/
def usedCount (f : Folder) : Nat := f.usage.count true

/-- Number of clear (free) bits in the bitmap. -/
def freeCount (f : Folder) : Nat := f.capacity - f.usedCount

/-- The list of currently free slot indices. -/
def freeSlots (f : Folder) : List Nat :=
  (List.range f.capacity).filter (fun i => !f.slotUsed i)

/-- A freshly created folder: all slots clear. -/
def empty (capacitySlots : Nat) : Folder := ⟨List.replicate capacitySlots false⟩

/-- Modelled from the spec: `allocate() -> slotIndex | NoSpace` — find a
bit that is currently clear and set it, returning its position; selection
is randomized (`r` chooses among the free slots); exhaustion is detected
via the free count and fails fast with `NoSpace` (`none`). -/
def allocate (f : Folder) (r : Nat) : Option (Nat × Folder) :=
  if f.freeSlots.isEmpty then none
  else
    let slot := f.freeSlots.getD (r % f.freeSlots.length) 0
    some (slot, ⟨f.usage.set slot true⟩)

/-- Modelled from the spec: `release(slotIndex)` clears the bit at the
given position; the bit must currently be set, otherwise the call fails
with a corruption error (`none`) instead of silently succeeding. -/
def release (f : Folder) (slot : Nat) : Option Folder :=
  if f.slotUsed slot then some ⟨f.usage.set slot false⟩ else none

/-- Modelled from the spec: a sequence of `allocate` calls against one
folder, threading the folder state; each entry of `rs` supplies the
randomness for one call, and each call's outcome is recorded. -/
def allocRun (f : Folder) : List Nat → List (Option Nat) × Folder
  | [] => ([], f)
  | r :: rs =>
    match f.allocate r with
    | none =>
      let p := allocRun f rs
      (none :: p.1, p.2)
    | some (i, f') =>
      let p := allocRun f' rs
      (some i :: p.1, p.2)

/-- Modelled from the spec: an interleaved execution of two workers each
performing one `allocate` against the same folder.  Per §5, allocation
within one folder is serialized, so an interleaving of the two atomic
calls is one of the two orders, chosen by `firstFirst`.  The pair holds
worker 1's and worker 2's returned slot (if any). -/
def twoWorkerAlloc (f : Folder) (r1 r2 : Nat) (firstFirst : Bool) :
    Option Nat × Option Nat :=
  if firstFirst then
    match f.allocate r1 with
    | none => (none, (f.allocate r2).map Prod.fst)
    | some (i, f') => (some i, (f'.allocate r2).map Prod.fst)
  else
    match f.allocate r2 with
    | none => ((f.allocate r1).map Prod.fst, none)
    | some (j, f') => ((f'.allocate r1).map Prod.fst, some j)

end Folder

/-! ## Contract manager and sector location index.

Modelled from the spec (§3, §4.3, §4.4): the contract manager
implementation is not among the provided sources, so its operation surface
is embedded from the spec's words.  The index is an association list from
an abstract identifier type `κ` (instantiated with the 12-byte `sectorID`
by the collaborator producing identifiers) to `sectorLocation`; sector
data (`δ`) and the physical store are abstract.  Randomness and the
outcome of the durable-persistence collaborator are explicit parameters. -/

/-- The error kinds of §7 produced by the modelled operations. -/
inductive CMError where
  | errNotFound
  | errNoSpace
  | errCorruption
  | errPersistenceFailure
deriving DecidableEq

/-- Modelled from the spec: the contract manager's state — the attached
storage folders (a folder's identifier is its position in the list), the
sector location index, and the physical store mapping
`(folderID, slotIndex)` to sector data. -/
structure CMState (κ δ : Type) where
  folders : List Folder
  index : List (κ × sectorLocation)
  store : List ((Nat × Nat) × δ)
deriving DecidableEq

variable {κ δ : Type} [DecidableEq κ]

/-- `lookup(id)` on the sector location index (§4.3): first entry whose
key equals `id`. -/
def lookupIndex : List (κ × sectorLocation) → κ → Option sectorLocation
  | [], _ => none
  | p :: t, id => if p.1 = id then some p.2 else lookupIndex t id

/-- `addReference(id)` (§4.3): increment the count of an existing entry. -/
def bumpCount (idx : List (κ × sectorLocation)) (id : κ) : List (κ × sectorLocation) :=
  idx.map (fun p => if p.1 = id then (p.1, { p.2 with count := p.2.count + 1 }) else p)

/-- The decrement half of `removeReference(id)` (§4.3). -/
def decCount (idx : List (κ × sectorLocation)) (id : κ) : List (κ × sectorLocation) :=
  idx.map (fun p => if p.1 = id then (p.1, { p.2 with count := p.2.count - 1 }) else p)

/-- Deletion of an index entry once its count reaches zero (§4.3). -/
def removeEntry (idx : List (κ × sectorLocation)) (id : κ) : List (κ × sectorLocation) :=
  idx.filter (fun p => p.1 ≠ id)

/-- `insertNew(id, location)` (§4.3); only called on identifiers the
caller has determined to be absent. -/
def insertEntry (idx : List (κ × sectorLocation)) (id : κ) (loc : sectorLocation) :
    List (κ × sectorLocation) :=
  (id, loc) :: idx

/-- The folder with identifier `i` (an out-of-range identifier denotes an
empty folder, which holds nothing and accepts nothing). -/
def getFolder (folders : List Folder) (i : Nat) : Folder :=
  folders.getD i ⟨[]⟩

/-- Modelled from the spec: folder-selection policy (§4.2) — only folders
with free space qualify; `r` distributes among the qualifying folders. -/
def pickFolder (folders : List Folder) (r : Nat) : Option Nat :=
  let cands := (List.range folders.length).filter
      (fun i => !(getFolder folders i).freeSlots.isEmpty)
  if cands.isEmpty then none
  else some (cands.getD (r % cands.length) 0)

/-- Physical write-at-offset of sector data (collaborator I/O, §6). -/
def writeStore {δ : Type} (st : List ((Nat × Nat) × δ)) (k : Nat × Nat) (d : δ) :
    List ((Nat × Nat) × δ) :=
  (k, d) :: st

/-- Physical read-at-offset of sector data (collaborator I/O, §6). -/
def readStore {δ : Type} : List ((Nat × Nat) × δ) → (Nat × Nat) → Option δ
  | [], _ => none
  | p :: t, k => if p.1 = k then some p.2 else readStore t k

/-- Removal of the physical data of a freed slot. -/
def eraseStore {δ : Type} (st : List ((Nat × Nat) × δ)) (k : Nat × Nat) :
    List ((Nat × Nat) × δ) :=
  st.filter (fun p => p.1 ≠ k)

/-- Modelled from the spec: `storeSector(id, data)` (§4.4).  If `id`
already exists, the reference count is incremented (no allocation); else a
folder is picked, a slot allocated there, the data written, and the index
entry committed.  The metadata change must be persisted before success is
acknowledged: `persistOk` is the outcome of the durable-persistence
collaborator, and on `PersistenceFailure` the in-memory allocation is
rolled back by releasing the allocated slot. -/
def storeSector (s : CMState κ δ) (id : κ) (data : δ) (r : Nat) (persistOk : Bool) :
    Except CMError Unit × CMState κ δ :=
  match lookupIndex s.index id with
  | some _ =>
    if persistOk then
      (Except.ok (), { s with index := bumpCount s.index id })
    else
      (Except.error .errPersistenceFailure, s)
  | none =>
    match pickFolder s.folders r with
    | none => (Except.error .errNoSpace, s)
    | some fi =>
      match (getFolder s.folders fi).allocate r with
      | none => (Except.error .errNoSpace, s)
      | some (slot, f') =>
        if persistOk then
          (Except.ok (), { s with
            folders := s.folders.set fi f'
            index := insertEntry s.index id ⟨slot, fi, 1⟩
            store := writeStore s.store (fi, slot) data })
        else
          match f'.release slot with
          | some f'' =>
            (Except.error .errPersistenceFailure,
             { s with folders := s.folders.set fi f'' })
          | none => (Except.error .errCorruption, s)

/-- Modelled from the spec: `releaseSector(id)` (§4.4) — `removeReference`
decrements the count; when it reaches zero the entry is removed and the
freed slot's bitmap bit is released, as one logical transaction persisted
together (`persistOk` is the persistence collaborator's outcome). -/
def releaseSector (s : CMState κ δ) (id : κ) (persistOk : Bool) :
    Except CMError Unit × CMState κ δ :=
  match lookupIndex s.index id with
  | none => (Except.error .errNotFound, s)
  | some loc =>
    if 2 ≤ loc.count then
      if persistOk then
        (Except.ok (), { s with index := decCount s.index id })
      else
        (Except.error .errPersistenceFailure, s)
    else
      match (getFolder s.folders loc.storageFolder).release loc.index with
      | none => (Except.error .errCorruption, s)
      | some f' =>
        if persistOk then
          (Except.ok (), { s with
            folders := s.folders.set loc.storageFolder f'
            index := removeEntry s.index id
            store := eraseStore s.store (loc.storageFolder, loc.index) })
        else
          (Except.error .errPersistenceFailure, s)

/-- Modelled from the spec: `fetchSector(id)` (§4.4) — pure lookup plus
physical read; no mutation, so the state is returned untouched. -/
def fetchSector (s : CMState κ δ) (id : κ) : Option δ × CMState κ δ :=
  match lookupIndex s.index id with
  | none => (none, s)
  | some loc => (readStore s.store (loc.storageFolder, loc.index), s)

/-- One call of the contract manager's mutation surface. -/
inductive CMCall (κ δ : Type) where
  | store (id : κ) (data : δ) (r : Nat) (persistOk : Bool)
  | release (id : κ) (persistOk : Bool)

/-- Apply one call to the state. -/
def applyCall (s : CMState κ δ) : CMCall κ δ → CMState κ δ
  | .store id data r persistOk => (storeSector s id data r persistOk).2
  | .release id persistOk => (releaseSector s id persistOk).2

/-- Run a sequence of `storeSector`/`releaseSector` calls. -/
def runCalls (s : CMState κ δ) (calls : List (CMCall κ δ)) : CMState κ δ :=
  calls.foldl applyCall s

/-- A freshly started contract manager: folders of the given capacities
with all slots clear, empty index, empty store. -/
def initState (κ δ : Type) (caps : List Nat) : CMState κ δ :=
  { folders := caps.map Folder.empty, index := [], store := [] }

/-- The central cross-structure invariant (§3), together with the
bookkeeping facts needed to maintain it: per-folder set-bit counts equal
the number of index entries referencing the folder; every entry points at
a used slot of an attached folder; index keys are unique; every count is
at least 1; and no two entries share a physical slot. -/
def Inv (s : CMState κ δ) : Prop :=
  (∀ fi ∈ List.range s.folders.length,
      (getFolder s.folders fi).usedCount
        = (s.index.filter (fun p => p.2.storageFolder = fi)).length)
  ∧ (∀ p ∈ s.index, p.2.storageFolder < s.folders.length
      ∧ (getFolder s.folders p.2.storageFolder).slotUsed p.2.index = true)
  ∧ (s.index.map Prod.fst).Nodup
  ∧ (∀ p ∈ s.index, 1 ≤ p.2.count)
  ∧ (s.index.map (fun p => (p.2.storageFolder, p.2.index))).Nodup

instance (s : CMState κ δ) : Decidable (Inv s) := by
  unfold Inv
  infer_instance

namespace Folder

theorem mem_freeSlots {f : Folder} {i : Nat} :
    i ∈ f.freeSlots ↔ i < f.capacity ∧ f.slotUsed i = false := by
  simp [freeSlots, List.mem_filter, List.mem_range]

theorem freeSlots_nodup (f : Folder) : f.freeSlots.Nodup :=
  (List.nodup_range _).filter _

theorem allocate_eq_none_iff {f : Folder} {r : Nat} :
    f.allocate r = none ↔ f.freeSlots = [] := by
  unfold allocate
  split <;> simp_all [List.isEmpty_iff]

theorem allocate_some {f : Folder} {r i : Nat} {f' : Folder}
    (h : f.allocate r = some (i, f')) :
    i ∈ f.freeSlots ∧ f'.usage = f.usage.set i true := by
  unfold allocate at h
  split at h
  · exact absurd h (by simp)
  · rename_i hne
    have hlen : 0 < f.freeSlots.length :=
      List.length_pos.mpr (by simpa [List.isEmpty_iff] using hne)
    have hmod : r % f.freeSlots.length < f.freeSlots.length := Nat.mod_lt _ hlen
    simp only [Option.some.injEq, Prod.mk.injEq] at h
    obtain ⟨hi, hf'⟩ := h
    have hget : f.freeSlots.getD (r % f.freeSlots.length) 0
        = f.freeSlots[r % f.freeSlots.length] := List.getD_eq_getElem _ _ hmod
    constructor
    · rw [← hi, hget]
      exact List.getElem_mem hmod
    · rw [← hf', ← hi]

theorem slotUsed_set_true {f : Folder} {i j : Nat} (hi : i < f.capacity) :
    (Folder.mk (f.usage.set i true)).slotUsed j
      = if i = j then true else f.slotUsed j := by
  have hi' : i < f.usage.length := hi
  by_cases hij : i = j
  · subst hij
    simp [slotUsed, List.getD_eq_getElem?_getD, List.getElem?_set, hi']
  · simp [slotUsed, List.getD_eq_getElem?_getD, List.getElem?_set, hij]

theorem slotUsed_set_false {f : Folder} {i j : Nat} (hi : i < f.capacity) :
    (Folder.mk (f.usage.set i false)).slotUsed j
      = if i = j then false else f.slotUsed j := by
  have hi' : i < f.usage.length := hi
  by_cases hij : i = j
  · subst hij
    simp [slotUsed, List.getD_eq_getElem?_getD, List.getElem?_set, hi']
  · simp [slotUsed, List.getD_eq_getElem?_getD, List.getElem?_set, hij]

theorem freeSlots_set_true {f : Folder} {i : Nat} (hmem : i ∈ f.freeSlots) :
    (Folder.mk (f.usage.set i true)).freeSlots = f.freeSlots.erase i := by
  obtain ⟨hi, _⟩ := mem_freeSlots.mp hmem
  have hcap : (Folder.mk (f.usage.set i true)).capacity = f.capacity := by
    simp [capacity, List.length_set]
  rw [(freeSlots_nodup f).erase_eq_filter i]
  unfold freeSlots
  rw [hcap, List.filter_filter]
  refine List.filter_congr ?_
  intro j hj
  rw [slotUsed_set_true hi]
  by_cases hij : i = j
  · subst hij
    simp
  · have hne : (j != i) = true := by
      simp only [bne_iff_ne, ne_eq]
      exact fun h => hij h.symm
    simp [hij, hne]

theorem length_freeSlots_set_true {f : Folder} {i : Nat} (hmem : i ∈ f.freeSlots) :
    (Folder.mk (f.usage.set i true)).freeSlots.length = f.freeSlots.length - 1 := by
  rw [freeSlots_set_true hmem]
  exact List.length_erase_of_mem hmem

theorem mem_freeSlots_set_true {f : Folder} {i j : Nat} (hmem : i ∈ f.freeSlots) :
    j ∈ (Folder.mk (f.usage.set i true)).freeSlots ↔ j ∈ f.freeSlots ∧ j ≠ i := by
  rw [freeSlots_set_true hmem, (freeSlots_nodup f).erase_eq_filter i]
  simp [List.mem_filter, bne]

theorem slotUsed_of_mem_used {f : Folder} {i : Nat} (h : f.slotUsed i = true) :
    i < f.capacity := by
  by_contra hlt
  rw [slotUsed, List.getD_eq_default _ _ (Nat.le_of_not_lt hlt)] at h
  exact Bool.false_ne_true h

theorem freeSlots_empty (n : Nat) : (empty n).freeSlots = List.range n := by
  have hused : ∀ i, (empty n).slotUsed i = false := by
    intro i
    rw [slotUsed]
    show (List.replicate n false).getD i false = false
    rw [List.getD_eq_getElem?_getD, List.getElem?_replicate]
    split <;> rfl
  have hcap : (empty n).capacity = n := List.length_replicate n false
  rw [freeSlots, hcap]
  exact List.filter_eq_self.mpr (fun a _ => by rw [hused a]; rfl)

theorem allocRun_spec :
    ∀ (rs : List Nat) (f : Folder), rs.length ≤ f.freeSlots.length →
      (∀ o ∈ (allocRun f rs).1, o.isSome)
      ∧ ((allocRun f rs).1.filterMap id).Nodup
      ∧ ((allocRun f rs).1.filterMap id).length = rs.length
      ∧ (∀ j ∈ (allocRun f rs).1.filterMap id, j ∈ f.freeSlots)
      ∧ (allocRun f rs).2.freeSlots.length = f.freeSlots.length - rs.length := by
  intro rs
  induction rs with
  | nil =>
    intro f _
    simp [allocRun]
  | cons r rs ih =>
    intro f h
    have hne : f.freeSlots ≠ [] := by
      intro h0
      rw [h0] at h
      simp at h
    obtain ⟨i, f', halloc⟩ : ∃ i f', f.allocate r = some (i, f') := by
      match hh : f.allocate r with
      | none => exact absurd (allocate_eq_none_iff.mp hh) hne
      | some (a, b) => exact ⟨a, b, rfl⟩
    obtain ⟨hmem, husage⟩ := allocate_some halloc
    have hf' : f' = Folder.mk (f.usage.set i true) := by
      cases f'
      simpa using husage
    subst hf'
    have hlen' := length_freeSlots_set_true hmem
    have hpos : 0 < f.freeSlots.length :=
      List.length_pos.mpr hne
    have hle : rs.length ≤ (Folder.mk (f.usage.set i true)).freeSlots.length := by
      rw [hlen']
      simp only [List.length_cons] at h
      omega
    obtain ⟨ha, hb, hc, hd, he⟩ := ih _ hle
    have hstep : allocRun f (r :: rs)
        = (some i :: (allocRun (Folder.mk (f.usage.set i true)) rs).1,
           (allocRun (Folder.mk (f.usage.set i true)) rs).2) := by
      rw [allocRun, halloc]
    rw [hstep]
    refine ⟨?_, ?_, ?_, ?_, ?_⟩
    · intro o ho
      rcases List.mem_cons.mp ho with h1 | h1
      · rw [h1]; rfl
      · exact ha o h1
    · rw [List.filterMap_cons]
      show (i :: _).Nodup
      refine List.nodup_cons.mpr ⟨?_, hb⟩
      intro hi
      exact ((mem_freeSlots_set_true hmem).mp (hd i hi)).2 rfl
    · rw [List.filterMap_cons]
      show (i :: _).length = _
      simp [hc]
    · intro j hj
      rw [List.filterMap_cons] at hj
      rcases List.mem_cons.mp hj with h1 | h1
      · rw [h1]; exact hmem
      · exact ((mem_freeSlots_set_true hmem).mp (hd j h1)).1
    · rw [he, hlen']
      simp only [List.length_cons]
      omega

theorem allocate_ne_of_allocate {f f' f'' : Folder} {r1 r2 i j : Nat}
    (h1 : f.allocate r1 = some (i, f')) (h2 : f'.allocate r2 = some (j, f'')) :
    j ≠ i := by
  obtain ⟨hm1, hu1⟩ := allocate_some h1
  obtain ⟨hm2, _⟩ := allocate_some h2
  have hf' : f' = Folder.mk (f.usage.set i true) := by
    cases f'
    simpa using hu1
  subst hf'
  exact ((mem_freeSlots_set_true hm1).mp hm2).2

theorem map_fst_allocate_ne {f f1 : Folder} {ra rb a i : Nat}
    (h1 : f.allocate ra = some (a, f1))
    (h2 : (f1.allocate rb).map Prod.fst = some i) :
    i ≠ a := by
  rcases Option.map_eq_some'.mp h2 with ⟨p, hp, hfst⟩
  obtain ⟨x, f2⟩ := p
  have hx : x = i := hfst
  subst hx
  exact allocate_ne_of_allocate h1 hp

end Folder

/-! ## Supporting lemmas for the contract-manager model. -/

theorem set_false_eq_self {l : List Bool} {i : Nat} (h : l.getD i false = false) :
    l.set i false = l := by
  apply List.ext_getElem?
  intro n
  rw [List.getElem?_set]
  split
  · rename_i hin
    subst hin
    split
    · rename_i hlt
      rw [List.getD_eq_getElem _ _ hlt] at h
      rw [List.getElem?_eq_getElem hlt, h]
    · rename_i hlt
      rw [eq_comm]
      exact List.getElem?_eq_none (Nat.le_of_not_lt hlt)
  · rfl

theorem set_getFolder_self {folders : List Folder} {fi : Nat} :
    folders.set fi (getFolder folders fi) = folders := by
  apply List.ext_getElem?
  intro n
  rw [List.getElem?_set]
  split
  · rename_i hin
    subst hin
    split
    · rename_i hlt
      rw [List.getElem?_eq_getElem hlt, getFolder, List.getD_eq_getElem _ _ hlt]
    · rename_i hlt
      rw [eq_comm]
      exact List.getElem?_eq_none (Nat.le_of_not_lt hlt)
  · rfl

theorem getFolder_set_self {folders : List Folder} {fi : Nat} {f : Folder}
    (h : fi < folders.length) :
    getFolder (folders.set fi f) fi = f := by
  rw [getFolder, List.getD_eq_getElem?_getD, List.getElem?_set, if_pos rfl, if_pos h]
  rfl

theorem getFolder_set_ne {folders : List Folder} {fi g : Nat} {f : Folder}
    (h : fi ≠ g) :
    getFolder (folders.set fi f) g = getFolder folders g := by
  rw [getFolder, getFolder, List.getD_eq_getElem?_getD, List.getD_eq_getElem?_getD,
    List.getElem?_set, if_neg h]

theorem Folder.capacity_set {f : Folder} {i : Nat} {b : Bool} :
    (Folder.mk (f.usage.set i b)).capacity = f.capacity :=
  List.length_set f.usage i b

theorem Folder.usedCount_set_true {f : Folder} {i : Nat}
    (h : i < f.capacity) (hfree : f.slotUsed i = false) :
    (Folder.mk (f.usage.set i true)).usedCount = f.usedCount + 1 := by
  have h' : i < f.usage.length := h
  have helem : f.usage[i] = false := by
    rw [Folder.slotUsed, List.getD_eq_getElem _ _ h'] at hfree
    exact hfree
  show (f.usage.set i true).count true = f.usage.count true + 1
  rw [List.count_set true true f.usage i h', helem]
  simp

theorem Folder.usedCount_set_false {f : Folder} {i : Nat}
    (h : i < f.capacity) (hused : f.slotUsed i = true) :
    (Folder.mk (f.usage.set i false)).usedCount = f.usedCount - 1 := by
  have h' : i < f.usage.length := h
  have helem : f.usage[i] = true := by
    rw [Folder.slotUsed, List.getD_eq_getElem _ _ h'] at hused
    exact hused
  show (f.usage.set i false).count true = f.usage.count true - 1
  rw [List.count_set false true f.usage i h', helem]
  simp

theorem lookupIndex_eq_none {idx : List (κ × sectorLocation)} {id : κ} :
    lookupIndex idx id = none ↔ ∀ p ∈ idx, p.1 ≠ id := by
  induction idx with
  | nil => simp [lookupIndex]
  | cons a t ih =>
    by_cases hkey : a.1 = id
    · simp [lookupIndex, hkey]
    · simp [lookupIndex, hkey, ih]

theorem lookupIndex_cons_self {idx : List (κ × sectorLocation)} {id : κ}
    {loc : sectorLocation} :
    lookupIndex ((id, loc) :: idx) id = some loc := by
  simp [lookupIndex]

theorem lookupIndex_mem {idx : List (κ × sectorLocation)} {id : κ} {loc : sectorLocation}
    (h : lookupIndex idx id = some loc) : (id, loc) ∈ idx := by
  induction idx with
  | nil => simp [lookupIndex] at h
  | cons a t ih =>
    by_cases hkey : a.1 = id
    · rw [lookupIndex, if_pos hkey] at h
      simp only [Option.some.injEq] at h
      have ha : a = (id, loc) := by
        obtain ⟨a1, a2⟩ := a
        cases hkey
        cases h
        rfl
      rw [← ha]
      exact List.mem_cons_self a t
    · rw [lookupIndex, if_neg hkey] at h
      exact List.mem_cons_of_mem a (ih h)

theorem nodup_map_inj {α β : Type _} (f : α → β) :
    ∀ {l : List α}, (l.map f).Nodup →
      ∀ p ∈ l, ∀ q ∈ l, f p = f q → p = q := by
  intro l
  induction l with
  | nil =>
    intro _ p hp
    exact absurd hp (List.not_mem_nil p)
  | cons a t ih =>
    intro hnd p hp q hq hfq
    rw [List.map_cons, List.nodup_cons] at hnd
    obtain ⟨hna, hnt⟩ := hnd
    rcases List.mem_cons.mp hp with rfl | hp'
    · rcases List.mem_cons.mp hq with rfl | hq'
      · rfl
      · exact absurd (List.mem_map.mpr ⟨q, hq', hfq.symm⟩) hna
    · rcases List.mem_cons.mp hq with rfl | hq'
      · exact absurd (List.mem_map.mpr ⟨p, hp', hfq⟩) hna
      · exact ih hnt p hp' q hq' hfq

theorem filter_key_eq {idx : List (κ × sectorLocation)} {id : κ} {loc : sectorLocation}
    (hnd : (idx.map Prod.fst).Nodup) (h : lookupIndex idx id = some loc) :
    idx.filter (fun p => p.1 = id) = [(id, loc)] := by
  induction idx with
  | nil => simp [lookupIndex] at h
  | cons a t ih =>
    rw [List.map_cons, List.nodup_cons] at hnd
    obtain ⟨hna, hnt⟩ := hnd
    by_cases hkey : a.1 = id
    · rw [lookupIndex, if_pos hkey] at h
      simp only [Option.some.injEq] at h
      have ha : a = (id, loc) := by
        obtain ⟨a1, a2⟩ := a
        cases hkey
        cases h
        rfl
      subst ha
      have ht : t.filter (fun p => p.1 = id) = [] := by
        rw [List.filter_eq_nil_iff]
        intro p hp
        simp only [decide_eq_true_eq]
        intro hpid
        exact hna (List.mem_map.mpr ⟨p, hp, hpid⟩)
      simp [ht]
    · rw [lookupIndex, if_neg hkey] at h
      have ht := ih hnt h
      simp [hkey, ht]

/-- The index is a permutation of its unique `id` entry and the rest. -/
theorem perm_removeEntry {idx : List (κ × sectorLocation)} {id : κ} {loc : sectorLocation}
    (hnd : (idx.map Prod.fst).Nodup) (h : lookupIndex idx id = some loc) :
    idx.Perm ((id, loc) :: removeEntry idx id) := by
  have hperm := List.filter_append_perm (fun p => p.1 = id) idx
  have hrm : idx.filter (fun p => !decide (p.1 = id)) = removeEntry idx id := by
    unfold removeEntry
    refine List.filter_congr ?_
    intro p _
    rw [decide_not]
  rw [filter_key_eq hnd h, hrm] at hperm
  exact hperm.symm

theorem getD_mod_mem {l : List Nat} (h : l ≠ []) (r : Nat) :
    l.getD (r % l.length) 0 ∈ l := by
  have hlen : 0 < l.length := List.length_pos.mpr h
  have hmod : r % l.length < l.length := Nat.mod_lt _ hlen
  rw [List.getD_eq_getElem _ _ hmod]
  exact List.getElem_mem hmod

theorem pickFolder_spec {folders : List Folder} {r fi : Nat}
    (h : pickFolder folders r = some fi) :
    fi < folders.length ∧ (getFolder folders fi).freeSlots ≠ [] := by
  simp only [pickFolder] at h
  split at h
  · exact absurd h (by simp)
  · rename_i hne
    simp only [Option.some.injEq] at h
    have hmem := getD_mod_mem
      (l := (List.range folders.length).filter
        (fun i => !(getFolder folders i).freeSlots.isEmpty))
      (by simpa [List.isEmpty_iff] using hne) r
    rw [h] at hmem
    obtain ⟨hr, hp⟩ := List.mem_filter.mp hmem
    exact ⟨List.mem_range.mp hr, by simpa [List.isEmpty_iff] using hp⟩

theorem release_eq_some {f : Folder} {i : Nat} {f' : Folder}
    (h : f.release i = some f') :
    f.slotUsed i = true ∧ f' = Folder.mk (f.usage.set i false) := by
  unfold Folder.release at h
  split at h
  · rename_i hs
    simp only [Option.some.injEq] at h
    exact ⟨hs, h.symm⟩
  · exact absurd h (by simp)

theorem allocate_of_pickFolder {folders : List Folder} {r fi : Nat}
    (hpick : pickFolder folders r = some fi) :
    ∃ slot f', (getFolder folders fi).allocate r = some (slot, f') := by
  obtain ⟨-, hne⟩ := pickFolder_spec hpick
  match hh : (getFolder folders fi).allocate r with
  | none => exact absurd (Folder.allocate_eq_none_iff.mp hh) hne
  | some (a, b) => exact ⟨a, b, rfl⟩

/-! Branch-by-branch computation lemmas for the contract-manager
operations. -/

theorem storeSector_dup {s : CMState κ δ} {id : κ} {d : δ} {r : Nat}
    {loc : sectorLocation} (hlook : lookupIndex s.index id = some loc) :
    storeSector s id d r true
      = (Except.ok (), { s with index := bumpCount s.index id }) := by
  simp [storeSector, hlook]

theorem storeSector_dup_fail {s : CMState κ δ} {id : κ} {d : δ} {r : Nat}
    {loc : sectorLocation} (hlook : lookupIndex s.index id = some loc) :
    storeSector s id d r false = (Except.error CMError.errPersistenceFailure, s) := by
  simp [storeSector, hlook]

theorem storeSector_nospace {s : CMState κ δ} {id : κ} {d : δ} {r : Nat} {pok : Bool}
    (hlook : lookupIndex s.index id = none) (hpick : pickFolder s.folders r = none) :
    storeSector s id d r pok = (Except.error CMError.errNoSpace, s) := by
  simp [storeSector, hlook, hpick]

theorem storeSector_alloc_nospace {s : CMState κ δ} {id : κ} {d : δ} {r fi : Nat}
    {pok : Bool} (hlook : lookupIndex s.index id = none)
    (hpick : pickFolder s.folders r = some fi)
    (halloc : (getFolder s.folders fi).allocate r = none) :
    storeSector s id d r pok = (Except.error CMError.errNoSpace, s) := by
  simp [storeSector, hlook, hpick, halloc]

theorem storeSector_new {s : CMState κ δ} {id : κ} {d : δ} {r fi slot : Nat}
    {f' : Folder} (hlook : lookupIndex s.index id = none)
    (hpick : pickFolder s.folders r = some fi)
    (halloc : (getFolder s.folders fi).allocate r = some (slot, f')) :
    storeSector s id d r true
      = (Except.ok (), { s with
          folders := s.folders.set fi f'
          index := insertEntry s.index id ⟨slot, fi, 1⟩
          store := writeStore s.store (fi, slot) d }) := by
  simp [storeSector, hlook, hpick, halloc]

theorem storeSector_rollback {s : CMState κ δ} {id : κ} {d : δ} {r fi slot : Nat}
    {f' : Folder} (hlook : lookupIndex s.index id = none)
    (hpick : pickFolder s.folders r = some fi)
    (halloc : (getFolder s.folders fi).allocate r = some (slot, f')) :
    storeSector s id d r false = (Except.error CMError.errPersistenceFailure, s) := by
  obtain ⟨hmem, husage⟩ := Folder.allocate_some halloc
  obtain ⟨hlt, hfree⟩ := Folder.mem_freeSlots.mp hmem
  have hlt' : slot < (getFolder s.folders fi).usage.length := hlt
  have hused : f'.slotUsed slot = true := by
    rw [Folder.slotUsed, husage, List.getD_eq_getElem?_getD, List.getElem?_set,
      if_pos rfl, if_pos hlt']
    rfl
  have hfree' : (getFolder s.folders fi).usage.getD slot false = false := hfree
  have hrel : f'.release slot = some (getFolder s.folders fi) := by
    unfold Folder.release
    rw [if_pos hused, husage, List.set_set, set_false_eq_self hfree']
  simp only [storeSector, hlook, hpick, halloc, hrel]
  rw [set_getFolder_self]
  rfl

theorem releaseSector_missing {s : CMState κ δ} {id : κ} {pok : Bool}
    (hlook : lookupIndex s.index id = none) :
    releaseSector s id pok = (Except.error CMError.errNotFound, s) := by
  simp [releaseSector, hlook]

theorem releaseSector_dec {s : CMState κ δ} {id : κ} {loc : sectorLocation}
    (hlook : lookupIndex s.index id = some loc) (hcnt : 2 ≤ loc.count) :
    releaseSector s id true
      = (Except.ok (), { s with index := decCount s.index id }) := by
  simp [releaseSector, hlook, hcnt]

theorem releaseSector_dec_fail {s : CMState κ δ} {id : κ} {loc : sectorLocation}
    (hlook : lookupIndex s.index id = some loc) (hcnt : 2 ≤ loc.count) :
    releaseSector s id false = (Except.error CMError.errPersistenceFailure, s) := by
  simp [releaseSector, hlook, hcnt]

theorem releaseSector_corrupt {s : CMState κ δ} {id : κ} {loc : sectorLocation}
    {pok : Bool} (hlook : lookupIndex s.index id = some loc) (hcnt : ¬ 2 ≤ loc.count)
    (hrel : (getFolder s.folders loc.storageFolder).release loc.index = none) :
    releaseSector s id pok = (Except.error CMError.errCorruption, s) := by
  simp [releaseSector, hlook, hcnt, hrel]

theorem releaseSector_free {s : CMState κ δ} {id : κ} {loc : sectorLocation}
    {f' : Folder} (hlook : lookupIndex s.index id = some loc) (hcnt : ¬ 2 ≤ loc.count)
    (hrel : (getFolder s.folders loc.storageFolder).release loc.index = some f') :
    releaseSector s id true
      = (Except.ok (), { s with
          folders := s.folders.set loc.storageFolder f'
          index := removeEntry s.index id
          store := eraseStore s.store (loc.storageFolder, loc.index) }) := by
  simp [releaseSector, hlook, hcnt, hrel]

theorem releaseSector_free_fail {s : CMState κ δ} {id : κ} {loc : sectorLocation}
    {f' : Folder} (hlook : lookupIndex s.index id = some loc) (hcnt : ¬ 2 ≤ loc.count)
    (hrel : (getFolder s.folders loc.storageFolder).release loc.index = some f') :
    releaseSector s id false = (Except.error CMError.errPersistenceFailure, s) := by
  simp [releaseSector, hlook, hcnt, hrel]

theorem readStore_write_self {δ : Type} {st : List ((Nat × Nat) × δ)} {k : Nat × Nat}
    {d : δ} : readStore (writeStore st k d) k = some d := by
  simp [readStore, writeStore]

/-! Lemmas about the index operations. -/

theorem length_filter_bumpCount {idx : List (κ × sectorLocation)} {id : κ} {fi : Nat} :
    ((bumpCount idx id).filter (fun p => p.2.storageFolder = fi)).length
      = (idx.filter (fun p => p.2.storageFolder = fi)).length := by
  unfold bumpCount
  rw [List.filter_map, List.length_map]
  congr 1
  refine List.filter_congr ?_
  intro p _
  by_cases h : p.1 = id <;> simp [Function.comp, h]

theorem map_fst_bumpCount {idx : List (κ × sectorLocation)} {id : κ} :
    (bumpCount idx id).map Prod.fst = idx.map Prod.fst := by
  unfold bumpCount
  rw [List.map_map]
  refine List.map_congr_left ?_
  intro p _
  by_cases h : p.1 = id <;> simp [Function.comp, h]

theorem map_pair_bumpCount {idx : List (κ × sectorLocation)} {id : κ} :
    (bumpCount idx id).map (fun p => (p.2.storageFolder, p.2.index))
      = idx.map (fun p => (p.2.storageFolder, p.2.index)) := by
  unfold bumpCount
  rw [List.map_map]
  refine List.map_congr_left ?_
  intro p _
  by_cases h : p.1 = id <;> simp [Function.comp, h]

theorem mem_bumpCount {idx : List (κ × sectorLocation)} {id : κ} {q : κ × sectorLocation}
    (h : q ∈ bumpCount idx id) :
    ∃ p ∈ idx, q.1 = p.1 ∧ q.2.storageFolder = p.2.storageFolder
      ∧ q.2.index = p.2.index ∧ p.2.count ≤ q.2.count := by
  unfold bumpCount at h
  rcases List.mem_map.mp h with ⟨p, hp, hq⟩
  refine ⟨p, hp, ?_⟩
  rw [← hq]
  by_cases hk : p.1 = id
  · simp [hk, Nat.le_succ]
  · simp [hk]

theorem length_filter_decCount {idx : List (κ × sectorLocation)} {id : κ} {fi : Nat} :
    ((decCount idx id).filter (fun p => p.2.storageFolder = fi)).length
      = (idx.filter (fun p => p.2.storageFolder = fi)).length := by
  unfold decCount
  rw [List.filter_map, List.length_map]
  congr 1
  refine List.filter_congr ?_
  intro p _
  by_cases h : p.1 = id <;> simp [Function.comp, h]

theorem map_fst_decCount {idx : List (κ × sectorLocation)} {id : κ} :
    (decCount idx id).map Prod.fst = idx.map Prod.fst := by
  unfold decCount
  rw [List.map_map]
  refine List.map_congr_left ?_
  intro p _
  by_cases h : p.1 = id <;> simp [Function.comp, h]

theorem map_pair_decCount {idx : List (κ × sectorLocation)} {id : κ} :
    (decCount idx id).map (fun p => (p.2.storageFolder, p.2.index))
      = idx.map (fun p => (p.2.storageFolder, p.2.index)) := by
  unfold decCount
  rw [List.map_map]
  refine List.map_congr_left ?_
  intro p _
  by_cases h : p.1 = id <;> simp [Function.comp, h]

theorem mem_decCount {idx : List (κ × sectorLocation)} {id : κ} {q : κ × sectorLocation}
    (h : q ∈ decCount idx id) :
    ∃ p ∈ idx, q.1 = p.1 ∧ q.2.storageFolder = p.2.storageFolder
      ∧ q.2.index = p.2.index
      ∧ ((p.1 ≠ id ∧ q.2.count = p.2.count)
          ∨ (p.1 = id ∧ q.2.count = p.2.count - 1)) := by
  unfold decCount at h
  rcases List.mem_map.mp h with ⟨p, hp, hq⟩
  refine ⟨p, hp, ?_⟩
  rw [← hq]
  by_cases hk : p.1 = id
  · simp [hk]
  · simp [hk]

theorem bumpCount_cons_self {idx : List (κ × sectorLocation)} {id : κ}
    {loc : sectorLocation} :
    bumpCount ((id, loc) :: idx) id
      = (id, { loc with count := loc.count + 1 }) :: bumpCount idx id := by
  unfold bumpCount
  rw [List.map_cons, if_pos rfl]

theorem bumpCount_of_no_key {idx : List (κ × sectorLocation)} {id : κ}
    (h : ∀ p ∈ idx, p.1 ≠ id) : bumpCount idx id = idx := by
  induction idx with
  | nil => rfl
  | cons a t ih =>
    unfold bumpCount
    rw [List.map_cons, if_neg (h a (List.mem_cons_self a t))]
    show a :: bumpCount t id = a :: t
    rw [ih (fun p hp => h p (List.mem_cons_of_mem a hp))]

theorem decCount_cons_self {idx : List (κ × sectorLocation)} {id : κ}
    {loc : sectorLocation} :
    decCount ((id, loc) :: idx) id
      = (id, { loc with count := loc.count - 1 }) :: decCount idx id := by
  unfold decCount
  rw [List.map_cons, if_pos rfl]

theorem decCount_of_no_key {idx : List (κ × sectorLocation)} {id : κ}
    (h : ∀ p ∈ idx, p.1 ≠ id) : decCount idx id = idx := by
  induction idx with
  | nil => rfl
  | cons a t ih =>
    unfold decCount
    rw [List.map_cons, if_neg (h a (List.mem_cons_self a t))]
    show a :: decCount t id = a :: t
    rw [ih (fun p hp => h p (List.mem_cons_of_mem a hp))]

theorem removeEntry_cons_self {idx : List (κ × sectorLocation)} {id : κ}
    {loc : sectorLocation} :
    removeEntry ((id, loc) :: idx) id = removeEntry idx id := by
  unfold removeEntry
  rw [List.filter_cons, if_neg (by simp)]

theorem removeEntry_of_no_key {idx : List (κ × sectorLocation)} {id : κ}
    (h : ∀ p ∈ idx, p.1 ≠ id) : removeEntry idx id = idx := by
  unfold removeEntry
  exact List.filter_eq_self.mpr (fun p hp => by simpa using h p hp)

theorem fetchSector_found {s : CMState κ δ} {id : κ} {loc : sectorLocation}
    (hlook : lookupIndex s.index id = some loc) :
    fetchSector s id = (readStore s.store (loc.storageFolder, loc.index), s) := by
  unfold fetchSector
  rw [hlook]

theorem fetchSector_missing {s : CMState κ δ} {id : κ}
    (hlook : lookupIndex s.index id = none) :
    fetchSector s id = (none, s) := by
  unfold fetchSector
  rw [hlook]

/-! Invariant preservation. -/

theorem inv_bump {s : CMState κ δ} {id : κ} (hinv : Inv s) :
    Inv { s with index := bumpCount s.index id } := by
  obtain ⟨ha, hb, hc, hd, he⟩ := hinv
  refine ⟨?_, ?_, ?_, ?_, ?_⟩
  · intro fi hfi
    show (getFolder s.folders fi).usedCount = _
    rw [length_filter_bumpCount]
    exact ha fi hfi
  · intro q hq
    obtain ⟨p, hp, -, hsf, hidx, -⟩ := mem_bumpCount hq
    show q.2.storageFolder < s.folders.length ∧ _
    rw [hsf, hidx]
    exact hb p hp
  · show ((bumpCount s.index id).map Prod.fst).Nodup
    rw [map_fst_bumpCount]
    exact hc
  · intro q hq
    obtain ⟨p, hp, -, -, -, hcnt⟩ := mem_bumpCount hq
    exact le_trans (hd p hp) hcnt
  · show ((bumpCount s.index id).map _).Nodup
    rw [map_pair_bumpCount]
    exact he

theorem inv_decCount {s : CMState κ δ} {id : κ} {loc : sectorLocation} (hinv : Inv s)
    (hlook : lookupIndex s.index id = some loc) (hcnt : 2 ≤ loc.count) :
    Inv { s with index := decCount s.index id } := by
  obtain ⟨ha, hb, hc, hd, he⟩ := hinv
  refine ⟨?_, ?_, ?_, ?_, ?_⟩
  · intro fi hfi
    show (getFolder s.folders fi).usedCount = _
    rw [length_filter_decCount]
    exact ha fi hfi
  · intro q hq
    obtain ⟨p, hp, -, hsf, hidx, -⟩ := mem_decCount hq
    show q.2.storageFolder < s.folders.length ∧ _
    rw [hsf, hidx]
    exact hb p hp
  · show ((decCount s.index id).map Prod.fst).Nodup
    rw [map_fst_decCount]
    exact hc
  · intro q hq
    obtain ⟨p, hp, -, -, -, hcase⟩ := mem_decCount hq
    rcases hcase with ⟨-, hceq⟩ | ⟨hkey, hceq⟩
    · rw [hceq]
      exact hd p hp
    · have hpl : p = (id, loc) :=
        nodup_map_inj Prod.fst hc p hp (id, loc) (lookupIndex_mem hlook) (by rw [hkey])
      rw [hceq, hpl]
      show 1 ≤ loc.count - 1
      omega
  · show ((decCount s.index id).map _).Nodup
    rw [map_pair_decCount]
    exact he

theorem inv_insert {s : CMState κ δ} {id : κ} {d : δ} {r fi slot : Nat} {f' : Folder}
    (hinv : Inv s) (hlook : lookupIndex s.index id = none)
    (hpick : pickFolder s.folders r = some fi)
    (halloc : (getFolder s.folders fi).allocate r = some (slot, f')) :
    Inv { s with
        folders := s.folders.set fi f'
        index := insertEntry s.index id ⟨slot, fi, 1⟩
        store := writeStore s.store (fi, slot) d } := by
  obtain ⟨ha, hb, hc, hd, he⟩ := hinv
  obtain ⟨hfilen, -⟩ := pickFolder_spec hpick
  obtain ⟨hmem, husage⟩ := Folder.allocate_some halloc
  obtain ⟨hlt, hfree⟩ := Folder.mem_freeSlots.mp hmem
  have hf' : f' = Folder.mk ((getFolder s.folders fi).usage.set slot true) := by
    cases f'
    simpa using husage
  subst hf'
  refine ⟨?_, ?_, ?_, ?_, ?_⟩
  · intro g hg
    rw [List.mem_range, List.length_set] at hg
    show (getFolder (s.folders.set fi _) g).usedCount
      = ((insertEntry s.index id ⟨slot, fi, 1⟩).filter
          (fun p => p.2.storageFolder = g)).length
    unfold insertEntry
    rw [List.filter_cons]
    by_cases hgfi : g = fi
    · subst hgfi
      rw [getFolder_set_self hfilen, Folder.usedCount_set_true hlt hfree,
        if_pos (by simp), List.length_cons, ha g (List.mem_range.mpr hg)]
    · have hne : ¬ fi = g := fun h => hgfi h.symm
      rw [getFolder_set_ne hne, if_neg (by simpa using hne),
        ha g (List.mem_range.mpr hg)]
  · intro q hq
    rcases List.mem_cons.mp hq with rfl | hq'
    · refine ⟨?_, ?_⟩
      · show fi < (s.folders.set fi _).length
        rw [List.length_set]
        exact hfilen
      · show (getFolder (s.folders.set fi _) fi).slotUsed slot = true
        rw [getFolder_set_self hfilen, Folder.slotUsed_set_true hlt, if_pos rfl]
    · obtain ⟨hql, hqu⟩ := hb q hq'
      refine ⟨?_, ?_⟩
      · rw [List.length_set]
        exact hql
      · by_cases hqfi : q.2.storageFolder = fi
        · rw [hqfi, getFolder_set_self hfilen, Folder.slotUsed_set_true hlt]
          rw [hqfi] at hqu
          by_cases hqs : slot = q.2.index
          · rw [if_pos hqs]
          · rw [if_neg hqs]
            exact hqu
        · rw [getFolder_set_ne (fun h => hqfi h.symm)]
          exact hqu
  · show ((insertEntry s.index id ⟨slot, fi, 1⟩).map Prod.fst).Nodup
    unfold insertEntry
    rw [List.map_cons]
    refine List.nodup_cons.mpr ⟨?_, hc⟩
    intro hmem'
    rcases List.mem_map.mp hmem' with ⟨p, hp, hpk⟩
    exact (lookupIndex_eq_none.mp hlook p hp) hpk
  · intro q hq
    rcases List.mem_cons.mp hq with rfl | hq'
    · exact le_refl 1
    · exact hd q hq'
  · show ((insertEntry s.index id ⟨slot, fi, 1⟩).map _).Nodup
    unfold insertEntry
    rw [List.map_cons]
    refine List.nodup_cons.mpr ⟨?_, he⟩
    intro hmem'
    rcases List.mem_map.mp hmem' with ⟨p, hp, hpk⟩
    have hpsf : p.2.storageFolder = fi := congrArg Prod.fst hpk
    have hpidx : p.2.index = slot := congrArg Prod.snd hpk
    have hused := (hb p hp).2
    rw [hpsf, hpidx] at hused
    rw [hfree] at hused
    simp at hused

theorem inv_remove {s : CMState κ δ} {id : κ} {loc : sectorLocation} {f' : Folder}
    (hinv : Inv s) (hlook : lookupIndex s.index id = some loc)
    (hrel : (getFolder s.folders loc.storageFolder).release loc.index = some f') :
    Inv { s with
        folders := s.folders.set loc.storageFolder f'
        index := removeEntry s.index id
        store := eraseStore s.store (loc.storageFolder, loc.index) } := by
  obtain ⟨ha, hb, hc, hd, he⟩ := hinv
  obtain ⟨hused, hf'⟩ := release_eq_some hrel
  subst hf'
  have hloclen : loc.storageFolder < s.folders.length := (hb _ (lookupIndex_mem hlook)).1
  have hlocidx : loc.index < (getFolder s.folders loc.storageFolder).capacity :=
    Folder.slotUsed_of_mem_used hused
  have hperm := perm_removeEntry hc hlook
  refine ⟨?_, ?_, ?_, ?_, ?_⟩
  · intro g hg
    rw [List.mem_range, List.length_set] at hg
    show (getFolder (s.folders.set loc.storageFolder _) g).usedCount
      = ((removeEntry s.index id).filter (fun p => p.2.storageFolder = g)).length
    have hflen := (hperm.filter (fun p => p.2.storageFolder = g)).length_eq
    rw [List.filter_cons] at hflen
    by_cases hlg : loc.storageFolder = g
    · subst hlg
      rw [if_pos (by simp), List.length_cons] at hflen
      rw [getFolder_set_self hloclen, Folder.usedCount_set_false hlocidx hused,
        ha loc.storageFolder (List.mem_range.mpr hg), hflen]
      omega
    · rw [if_neg (by simpa using hlg)] at hflen
      rw [getFolder_set_ne hlg, ha g (List.mem_range.mpr hg), hflen]
  · intro q hq
    have hq1 : q ∈ s.index := (List.mem_filter.mp hq).1
    have hq2 : q.1 ≠ id := by simpa using (List.mem_filter.mp hq).2
    obtain ⟨hql, hqu⟩ := hb q hq1
    refine ⟨?_, ?_⟩
    · show q.2.storageFolder < (s.folders.set loc.storageFolder _).length
      rw [List.length_set]
      exact hql
    · by_cases hqsf : q.2.storageFolder = loc.storageFolder
      · show (getFolder (s.folders.set loc.storageFolder _) q.2.storageFolder).slotUsed
            q.2.index = true
        rw [hqsf, getFolder_set_self hloclen, Folder.slotUsed_set_false hlocidx]
        have hqidx : loc.index ≠ q.2.index := by
          intro heq
          have hpq : q = (id, loc) :=
            nodup_map_inj (fun p => (p.2.storageFolder, p.2.index)) he q hq1 (id, loc)
              (lookupIndex_mem hlook)
              (by
                show (q.2.storageFolder, q.2.index) = (loc.storageFolder, loc.index)
                rw [hqsf, ← heq])
          exact hq2 (by rw [hpq])
        rw [if_neg hqidx]
        rw [hqsf] at hqu
        exact hqu
      · show (getFolder (s.folders.set loc.storageFolder _) q.2.storageFolder).slotUsed
            q.2.index = true
        rw [getFolder_set_ne (fun h => hqsf h.symm)]
        exact hqu
  · exact List.Nodup.sublist (List.Sublist.map Prod.fst (List.filter_sublist s.index)) hc
  · intro q hq
    exact hd q (List.mem_filter.mp hq).1
  · exact List.Nodup.sublist
      (List.Sublist.map (fun p => (p.2.storageFolder, p.2.index))
        (List.filter_sublist s.index)) he

theorem inv_storeSector {s : CMState κ δ} (id : κ) (d : δ) (r : Nat) (pok : Bool)
    (hinv : Inv s) : Inv (storeSector s id d r pok).2 := by
  cases hlook : lookupIndex s.index id with
  | some loc =>
    cases pok
    · rw [storeSector_dup_fail hlook]
      exact hinv
    · rw [storeSector_dup hlook]
      exact inv_bump hinv
  | none =>
    cases hpick : pickFolder s.folders r with
    | none =>
      rw [storeSector_nospace hlook hpick]
      exact hinv
    | some fi =>
      obtain ⟨slot, f', halloc⟩ := allocate_of_pickFolder hpick
      cases pok
      · rw [storeSector_rollback hlook hpick halloc]
        exact hinv
      · rw [storeSector_new hlook hpick halloc]
        exact inv_insert hinv hlook hpick halloc

theorem inv_releaseSector {s : CMState κ δ} (id : κ) (pok : Bool) (hinv : Inv s) :
    Inv (releaseSector s id pok).2 := by
  cases hlook : lookupIndex s.index id with
  | none =>
    rw [releaseSector_missing hlook]
    exact hinv
  | some loc =>
    by_cases hcnt : 2 ≤ loc.count
    · cases pok
      · rw [releaseSector_dec_fail hlook hcnt]
        exact hinv
      · rw [releaseSector_dec hlook hcnt]
        exact inv_decCount hinv hlook hcnt
    · cases hrel : (getFolder s.folders loc.storageFolder).release loc.index with
      | none =>
        rw [releaseSector_corrupt hlook hcnt hrel]
        exact hinv
      | some f' =>
        cases pok
        · rw [releaseSector_free_fail hlook hcnt hrel]
          exact hinv
        · rw [releaseSector_free hlook hcnt hrel]
          exact inv_remove hinv hlook hrel

theorem inv_applyCall {s : CMState κ δ} (c : CMCall κ δ) (hinv : Inv s) :
    Inv (applyCall s c) := by
  cases c with
  | store id d r pok => exact inv_storeSector id d r pok hinv
  | release id pok => exact inv_releaseSector id pok hinv

theorem inv_runCalls {s : CMState κ δ} (calls : List (CMCall κ δ)) (hinv : Inv s) :
    Inv (runCalls s calls) := by
  induction calls generalizing s with
  | nil => exact hinv
  | cons c cs ih => exact ih (inv_applyCall c hinv)

theorem inv_initState (caps : List Nat) : Inv (initState κ δ caps) := by
  refine ⟨?_, ?_, ?_, ?_, ?_⟩
  · intro fi hfi
    rw [List.mem_range] at hfi
    have hlen : fi < (caps.map Folder.empty).length := hfi
    show ((caps.map Folder.empty).getD fi ⟨[]⟩).usedCount = _
    have hmemf : (caps.map Folder.empty).getD fi ⟨[]⟩ ∈ caps.map Folder.empty := by
      rw [List.getD_eq_getElem _ _ hlen]
      exact List.getElem_mem hlen
    rcases List.mem_map.mp hmemf with ⟨n, -, heq⟩
    rw [← heq]
    simp [Folder.empty, Folder.usedCount, List.count_replicate, initState]
  · intro q hq
    exact absurd hq (List.not_mem_nil q)
  · exact List.nodup_nil
  · intro q hq
    exact absurd hq (List.not_mem_nil q)
  · exact List.nodup_nil

/-! ## Claims about the bitmap allocator and the data model. -/

/-- C2: `allocate()` returns the position of a bit that was clear before
the call and sets exactly that bit; starting from a folder created with
`capacitySlots = 64`, 64 successive allocations (under any randomness) all
succeed and return 64 pairwise-distinct slot indices, and a 65th
allocation terminates with `NoSpace` (`none`). -/
theorem claim_C2_allocate_correct :
    (∀ (f : Folder) (r i : Nat) (f' : Folder),
        f.allocate r = some (i, f') →
        f.slotUsed i = false ∧ i < f.capacity ∧ f'.usage = f.usage.set i true)
    ∧ (∀ rs : List Nat, rs.length = 64 →
        (∀ o ∈ (Folder.allocRun (Folder.empty 64) rs).1, o.isSome)
        ∧ ((Folder.allocRun (Folder.empty 64) rs).1.filterMap id).Nodup
        ∧ ((Folder.allocRun (Folder.empty 64) rs).1.filterMap id).length = 64
        ∧ ∀ r' : Nat, (Folder.allocRun (Folder.empty 64) rs).2.allocate r' = none) := by
  constructor
  · intro f r i f' h
    obtain ⟨hmem, husage⟩ := Folder.allocate_some h
    obtain ⟨hlt, hfree⟩ := Folder.mem_freeSlots.mp hmem
    exact ⟨hfree, hlt, husage⟩
  · intro rs hrs
    have hfree : (Folder.empty 64).freeSlots.length = 64 := by
      rw [Folder.freeSlots_empty, List.length_range]
    have hle : rs.length ≤ (Folder.empty 64).freeSlots.length := by
      rw [hfree, hrs]
    obtain ⟨ha, hb, hc, hd, he⟩ := Folder.allocRun_spec rs _ hle
    refine ⟨ha, hb, by rw [hc, hrs], ?_⟩
    intro r'
    rw [Folder.allocate_eq_none_iff]
    have hz : (Folder.allocRun (Folder.empty 64) rs).2.freeSlots.length = 0 := by
      rw [he, hfree, hrs]
    exact List.length_eq_zero.mp hz

/-- Witness for C2 at concrete inputs. -/
theorem claim_C2_witness :
    ((Folder.empty 2).slotUsed 0 = false ∧ 0 < (Folder.empty 2).capacity
      ∧ (Folder.mk [true, false]).usage = (Folder.empty 2).usage.set 0 true)
    ∧ ((Folder.allocRun (Folder.empty 64) (List.replicate 64 0)).1.filterMap id).length
        = 64 := by
  constructor
  · exact claim_C2_allocate_correct.1 (Folder.empty 2) 0 0 (Folder.mk [true, false])
      (by decide)
  · exact (claim_C2_allocate_correct.2 (List.replicate 64 0) (by decide)).2.2.1

/-- C4: when the bit at `slotIndex` is currently set, `release(slotIndex)`
succeeds and returns the bitmap with exactly that bit cleared (no other
bit changes); when the bit is already clear it fails with the corruption
error (`none`) — leaving the bitmap untouched — instead of silently
succeeding. -/
theorem claim_C4_release_correct :
    ∀ (f : Folder) (slot : Nat),
      (f.slotUsed slot = true →
          f.release slot = some (Folder.mk (f.usage.set slot false))
          ∧ (Folder.mk (f.usage.set slot false)).slotUsed slot = false
          ∧ ∀ j, j ≠ slot →
              (Folder.mk (f.usage.set slot false)).slotUsed j = f.slotUsed j)
      ∧ (f.slotUsed slot = false → f.release slot = none) := by
  intro f slot
  constructor
  · intro hset
    have hlt : slot < f.capacity := Folder.slotUsed_of_mem_used hset
    refine ⟨?_, ?_, ?_⟩
    · unfold Folder.release
      rw [if_pos hset]
    · rw [Folder.slotUsed_set_false hlt, if_pos rfl]
    · intro j hj
      rw [Folder.slotUsed_set_false hlt, if_neg (fun hh => hj hh.symm)]
  · intro h
    unfold Folder.release
    simp [h]

/-- Witness for C4 at concrete inputs: releasing the set bit of `[true]`
succeeds and clears it; releasing the clear bit of `[false]` errors. -/
theorem claim_C4_witness :
    (Folder.mk [true]).release 0 = some (Folder.mk [false])
    ∧ (Folder.mk [false]).slotUsed 0 = false
    ∧ (Folder.mk [false]).release 0 = none := by
  obtain ⟨h1, h2, -⟩ := (claim_C4_release_correct (Folder.mk [true]) 0).1 (by decide)
  exact ⟨h1, h2, (claim_C4_release_correct (Folder.mk [false]) 0).2 (by decide)⟩

/-- C9: under the per-folder serialization the spec mandates, every
interleaving of two workers' `allocate` calls against one folder is one of
the two serial orders; in both orders, if both calls succeed the returned
slot indices are distinct (no double-allocation). -/
theorem claim_C9_no_double_allocation :
    ∀ (f : Folder) (r1 r2 : Nat) (firstFirst : Bool) (i j : Nat),
      Folder.twoWorkerAlloc f r1 r2 firstFirst = (some i, some j) → i ≠ j := by
  intro f r1 r2 ff i j h
  cases ff
  · rw [Folder.twoWorkerAlloc, if_neg (by simp)] at h
    cases hh : f.allocate r2 with
    | none =>
      rw [hh] at h
      simp at h
    | some p =>
      obtain ⟨b, f1⟩ := p
      rw [hh] at h
      simp only [Prod.mk.injEq] at h
      obtain ⟨h1, h2⟩ := h
      have hb : b = j := by simpa using h2
      subst hb
      exact Folder.map_fst_allocate_ne hh h1
  · rw [Folder.twoWorkerAlloc, if_pos rfl] at h
    cases hh : f.allocate r1 with
    | none =>
      rw [hh] at h
      simp at h
    | some p =>
      obtain ⟨a, f1⟩ := p
      rw [hh] at h
      simp only [Prod.mk.injEq] at h
      obtain ⟨h1, h2⟩ := h
      have ha : a = i := by simpa using h1
      subst ha
      exact fun hij => (Folder.map_fst_allocate_ne hh h2) hij.symm

/-- Witness for C9 at concrete inputs. -/
theorem claim_C9_witness :
    Folder.twoWorkerAlloc (Folder.empty 2) 0 0 true = (some 0, some 1)
    ∧ (0 : Nat) ≠ 1 :=
  ⟨by decide, claim_C9_no_double_allocation (Folder.empty 2) 0 0 true 0 1 (by decide)⟩

/-- C7: a `sectorID` is exactly 12 bytes (there are `256 ^ 12` of them),
and the `sectorLocation` fields built the way the source builds them
(`uint32(index)`, `uint16(storageFolder)`, `uint16(count)`) range exactly
over `[0, 2^32)`, `[0, 2^16)` and `[0, 2^16)` respectively. -/
theorem claim_C7_data_model :
    Fintype.card sectorID = 256 ^ 12
    ∧ (∀ i s c : Nat,
        (mkSectorLocation i s c).index < 2 ^ 32
        ∧ (mkSectorLocation i s c).storageFolder < 2 ^ 16
        ∧ (mkSectorLocation i s c).count < 2 ^ 16)
    ∧ (∀ v : Nat, v < 2 ^ 32 → (mkSectorLocation v 0 0).index = v)
    ∧ (∀ v : Nat, v < 2 ^ 16 →
        (mkSectorLocation 0 v 0).storageFolder = v
        ∧ (mkSectorLocation 0 0 v).count = v) := by
  refine ⟨?_, ?_, ?_, ?_⟩
  · rw [Fintype.card_fun, Fintype.card_fin, Fintype.card_fin]
  · intro i s c
    refine ⟨?_, ?_, ?_⟩
    · show i % 2 ^ 32 < 2 ^ 32
      exact Nat.mod_lt _ (by norm_num)
    · show s % 2 ^ 16 < 2 ^ 16
      exact Nat.mod_lt _ (by norm_num)
    · show c % 2 ^ 16 < 2 ^ 16
      exact Nat.mod_lt _ (by norm_num)
  · intro v hv
    exact Nat.mod_eq_of_lt hv
  · intro v hv
    exact ⟨Nat.mod_eq_of_lt hv, Nat.mod_eq_of_lt hv⟩

/-- Witness for C7 at concrete inputs. -/
theorem claim_C7_witness :
    (mkSectorLocation 7 0 0).index = 7
    ∧ (mkSectorLocation 0 5 0).storageFolder = 5 :=
  ⟨claim_C7_data_model.2.2.1 7 (by norm_num),
   (claim_C7_data_model.2.2.2 5 (by norm_num)).1⟩

/-- C8: the usage bitmap for `capacitySlots` slots consists of exactly
`ceil(capacitySlots / 64)` 64-bit words — `usageWordCount n` is the least
`k` with `n ≤ 64 * k` — and 24,000,000 slots take 375,000 words. -/
theorem claim_C8_bitmap_sizing :
    (∀ n : Nat, n ≤ 64 * usageWordCount n
        ∧ ∀ k : Nat, n ≤ 64 * k → usageWordCount n ≤ k)
    ∧ usageWordCount 24000000 = 375000 := by
  constructor
  · intro n
    constructor
    · unfold usageWordCount
      omega
    · intro k hk
      unfold usageWordCount
      omega
  · rfl

/-- Witness for C8 at a concrete input. -/
theorem claim_C8_witness :
    (100 : Nat) ≤ 64 * usageWordCount 100 ∧ usageWordCount 100 ≤ 2 :=
  ⟨(claim_C8_bitmap_sizing.1 100).1,
   (claim_C8_bitmap_sizing.1 100).2 2 (by norm_num)⟩

/-! ## Claims about the contract manager. -/

/-- C1: starting from a freshly attached set of folders, after every
sequence of `storeSector`/`releaseSector` calls (and hence after each
call of any sequence, every prefix being itself a sequence), each attached
folder's count of set usage bits equals the number of index entries whose
`storageFolder` references it, and every entry's `(storageFolder, index)`
pair refers to a slot marked used in that folder's bitmap. -/
theorem claim_C1_cross_invariant :
    ∀ (caps : List Nat) (calls : List (CMCall κ δ)),
      (∀ fi ∈ List.range (runCalls (initState κ δ caps) calls).folders.length,
          (getFolder (runCalls (initState κ δ caps) calls).folders fi).usedCount
            = ((runCalls (initState κ δ caps) calls).index.filter
                (fun p => p.2.storageFolder = fi)).length)
      ∧ (∀ p ∈ (runCalls (initState κ δ caps) calls).index,
          p.2.storageFolder < (runCalls (initState κ δ caps) calls).folders.length
          ∧ (getFolder (runCalls (initState κ δ caps) calls).folders
              p.2.storageFolder).slotUsed p.2.index = true) := by
  intro caps calls
  obtain ⟨ha, hb, -, -, -⟩ := inv_runCalls calls (inv_initState caps)
  exact ⟨ha, hb⟩

/-- Witness for C1 at a concrete run. -/
theorem claim_C1_witness :
    (getFolder (runCalls (initState Nat Nat [1])
        [CMCall.store 0 5 0 true]).folders 0).usedCount
      = ((runCalls (initState Nat Nat [1])
          [CMCall.store 0 5 0 true]).index.filter
          (fun p => p.2.storageFolder = 0)).length :=
  (claim_C1_cross_invariant [1] [CMCall.store 0 5 0 true]).1 0 (by decide)

/-- C5: whenever `storeSector` reports an error — in particular a
persistence failure after a slot was already allocated, which the model
rolls back by releasing the slot — the resulting state (index, every
folder's bitmap, and the store) is exactly the state before the call. -/
theorem claim_C5_store_atomicity :
    ∀ (s : CMState κ δ) (id : κ) (d : δ) (r : Nat) (pok : Bool) (e : CMError),
      (storeSector s id d r pok).1 = Except.error e →
      (storeSector s id d r pok).2 = s := by
  intro s id d r pok e herr
  cases hlook : lookupIndex s.index id with
  | some loc =>
    cases pok
    · rw [storeSector_dup_fail hlook]
    · rw [storeSector_dup hlook] at herr
      simp at herr
  | none =>
    cases hpick : pickFolder s.folders r with
    | none => rw [storeSector_nospace hlook hpick]
    | some fi =>
      obtain ⟨slot, f', halloc⟩ := allocate_of_pickFolder hpick
      cases pok
      · rw [storeSector_rollback hlook hpick halloc]
      · rw [storeSector_new hlook hpick halloc] at herr
        simp at herr

/-- Witness for C5: a persistence-failing store on a fresh manager leaves
the state untouched. -/
theorem claim_C5_witness :
    (storeSector (initState Nat Nat [1]) 0 42 0 false).2 = initState Nat Nat [1] :=
  claim_C5_store_atomicity (initState Nat Nat [1]) 0 42 0 false
    CMError.errPersistenceFailure (by rfl)

/-- C6: for an identifier not previously stored, a successful
`storeSector` followed by `fetchSector` returns the stored data, and
`fetchSector` never mutates the state. -/
theorem claim_C6_round_trip :
    (∀ (s : CMState κ δ) (id : κ) (d : δ) (r fi : Nat),
        lookupIndex s.index id = none →
        pickFolder s.folders r = some fi →
        (fetchSector (storeSector s id d r true).2 id).1 = some d)
    ∧ ∀ (s : CMState κ δ) (id : κ), (fetchSector s id).2 = s := by
  constructor
  · intro s id d r fi hlook hpick
    obtain ⟨slot, f', halloc⟩ := allocate_of_pickFolder hpick
    rw [storeSector_new hlook hpick halloc]
    have hlook1 : lookupIndex (insertEntry s.index id ⟨slot, fi, 1⟩) id
        = some ⟨slot, fi, 1⟩ := lookupIndex_cons_self
    rw [fetchSector_found hlook1]
    exact readStore_write_self
  · intro s id
    unfold fetchSector
    cases hlook : lookupIndex s.index id <;> rfl

/-- Witness for C6 at a concrete run. -/
theorem claim_C6_witness :
    (fetchSector (storeSector (initState Nat Nat [1]) 0 42 0 true).2 0).1 = some 42 :=
  claim_C6_round_trip.1 (initState Nat Nat [1]) 0 42 0 0 (by rfl) (by rfl)

/-- C3: deduplicated reference counting.  For an identifier not previously
stored (with a folder available), the first store creates the entry with
count 1; a second store of the same identifier raises the count to 2
without touching any folder bitmap (no second slot); one release brings
the count back to 1 and the data is still fetchable; a second release
removes the entry, clears the slot's bitmap bit, and a subsequent fetch
returns `NotFound` (`none`). -/
theorem claim_C3_dedup_refcount :
    ∀ (s : CMState κ δ) (id : κ) (d d' : δ) (r r' fi : Nat),
      lookupIndex s.index id = none →
      pickFolder s.folders r = some fi →
      ∃ slot : Nat,
        lookupIndex (storeSector s id d r true).2.index id = some ⟨slot, fi, 1⟩
        ∧ (storeSector (storeSector s id d r true).2 id d' r' true).2.folders
            = (storeSector s id d r true).2.folders
        ∧ lookupIndex
            (storeSector (storeSector s id d r true).2 id d' r' true).2.index id
            = some ⟨slot, fi, 2⟩
        ∧ lookupIndex
            (releaseSector
              (storeSector (storeSector s id d r true).2 id d' r' true).2 id true).2.index
            id = some ⟨slot, fi, 1⟩
        ∧ (fetchSector
            (releaseSector
              (storeSector (storeSector s id d r true).2 id d' r' true).2 id true).2
            id).1 = some d
        ∧ lookupIndex
            (releaseSector
              (releaseSector
                (storeSector (storeSector s id d r true).2 id d' r' true).2 id true).2
              id true).2.index id = none
        ∧ (getFolder
            (releaseSector
              (releaseSector
                (storeSector (storeSector s id d r true).2 id d' r' true).2 id true).2
              id true).2.folders fi).slotUsed slot = false
        ∧ (fetchSector
            (releaseSector
              (releaseSector
                (storeSector (storeSector s id d r true).2 id d' r' true).2 id true).2
              id true).2 id).1 = none := by
  intro s id d d' r r' fi hlook hpick
  obtain ⟨hfilen, -⟩ := pickFolder_spec hpick
  obtain ⟨slot, f', halloc⟩ := allocate_of_pickFolder hpick
  obtain ⟨hmem, husage⟩ := Folder.allocate_some halloc
  obtain ⟨hlt, hfree⟩ := Folder.mem_freeSlots.mp hmem
  have hnokey : ∀ p ∈ s.index, p.1 ≠ id := lookupIndex_eq_none.mp hlook
  refine ⟨slot, ?_⟩
  have e1 : (storeSector s id d r true).2
      = { s with
          folders := s.folders.set fi f'
          index := insertEntry s.index id ⟨slot, fi, 1⟩
          store := writeStore s.store (fi, slot) d } := by
    rw [storeSector_new hlook hpick halloc]
  have h1 : lookupIndex (storeSector s id d r true).2.index id = some ⟨slot, fi, 1⟩ := by
    rw [e1]
    exact lookupIndex_cons_self
  have e2 : (storeSector (storeSector s id d r true).2 id d' r' true).2
      = { s with
          folders := s.folders.set fi f'
          index := (id, (⟨slot, fi, 2⟩ : sectorLocation)) :: s.index
          store := writeStore s.store (fi, slot) d } := by
    rw [storeSector_dup h1, e1]
    show ({ s with
        folders := s.folders.set fi f'
        index := bumpCount (insertEntry s.index id ⟨slot, fi, 1⟩) id
        store := writeStore s.store (fi, slot) d } : CMState κ δ) = _
    rw [insertEntry, bumpCount_cons_self, bumpCount_of_no_key hnokey]
  have h2 : lookupIndex
      (storeSector (storeSector s id d r true).2 id d' r' true).2.index id
      = some ⟨slot, fi, 2⟩ := by
    rw [e2]
    exact lookupIndex_cons_self
  have e3 : (releaseSector
      (storeSector (storeSector s id d r true).2 id d' r' true).2 id true).2
      = { s with
          folders := s.folders.set fi f'
          index := (id, (⟨slot, fi, 1⟩ : sectorLocation)) :: s.index
          store := writeStore s.store (fi, slot) d } := by
    rw [releaseSector_dec h2 (by norm_num), e2]
    show ({ s with
        folders := s.folders.set fi f'
        index := decCount ((id, (⟨slot, fi, 2⟩ : sectorLocation)) :: s.index) id
        store := writeStore s.store (fi, slot) d } : CMState κ δ) = _
    rw [decCount_cons_self, decCount_of_no_key hnokey]
    rfl
  have h3 : lookupIndex
      (releaseSector
        (storeSector (storeSector s id d r true).2 id d' r' true).2 id true).2.index id
      = some ⟨slot, fi, 1⟩ := by
    rw [e3]
    exact lookupIndex_cons_self
  have hrel : (getFolder
      (releaseSector
        (storeSector (storeSector s id d r true).2 id d' r' true).2 id true).2.folders
      fi).release slot = some (Folder.mk (f'.usage.set slot false)) := by
    rw [e3]
    show (getFolder (s.folders.set fi f') fi).release slot = _
    rw [getFolder_set_self hfilen]
    have hlt' : slot < (getFolder s.folders fi).usage.length := hlt
    have hused' : f'.slotUsed slot = true := by
      rw [Folder.slotUsed, husage, List.getD_eq_getElem?_getD, List.getElem?_set,
        if_pos rfl, if_pos hlt']
      rfl
    unfold Folder.release
    rw [if_pos hused']
  have e4 : (releaseSector
      (releaseSector
        (storeSector (storeSector s id d r true).2 id d' r' true).2 id true).2
      id true).2
      = { s with
          folders := (s.folders.set fi f').set fi (Folder.mk (f'.usage.set slot false))
          index := s.index
          store := eraseStore (writeStore s.store (fi, slot) d) (fi, slot) } := by
    rw [releaseSector_free h3 (by norm_num) hrel, e3]
    show ({ s with
        folders := (s.folders.set fi f').set fi (Folder.mk (f'.usage.set slot false))
        index := removeEntry ((id, (⟨slot, fi, 1⟩ : sectorLocation)) :: s.index) id
        store := eraseStore (writeStore s.store (fi, slot) d) (fi, slot) } : CMState κ δ)
      = _
    rw [removeEntry_cons_self, removeEntry_of_no_key hnokey]
  have h4 : lookupIndex
      (releaseSector
        (releaseSector
          (storeSector (storeSector s id d r true).2 id d' r' true).2 id true).2
        id true).2.index id = none := by
    rw [e4]
    exact hlook
  refine ⟨h1, ?_, h2, h3, ?_, h4, ?_, ?_⟩
  · rw [e2, e1]
  · rw [fetchSector_found h3, e3]
    exact readStore_write_self
  · rw [e4]
    show (getFolder ((s.folders.set fi f').set fi
        (Folder.mk (f'.usage.set slot false))) fi).slotUsed slot = false
    have hfilen' : fi < (s.folders.set fi f').length := by
      rw [List.length_set]
      exact hfilen
    rw [getFolder_set_self hfilen']
    have hltf' : slot < f'.capacity := by
      show slot < f'.usage.length
      rw [husage, List.length_set]
      exact hlt
    rw [Folder.slotUsed_set_false hltf', if_pos rfl]
  · rw [fetchSector_missing h4]

/-! ## Lemmas and claim for `coinUnits`. -/

theorem isSuffixOf_append_eq {u v ds : List Char} (hlen : u.length = v.length) :
    u.isSuffixOf (ds ++ v) = true ↔ u = v := by
  rw [List.isSuffixOf_iff_suffix]
  constructor
  · rintro ⟨t, ht⟩
    have hlt : t.length = ds.length := by
      have hl := congrArg List.length ht
      simp only [List.length_append] at hl
      omega
    exact (List.append_inj ht hlt).2
  · rintro rfl
    exact List.suffix_append ds _

theorem unit_no_match {u v ds : List Char} (hlen : u.length = v.length)
    (hne : u ≠ v) : u.isSuffixOf (ds ++ v) = false := by
  cases h : u.isSuffixOf (ds ++ v) with
  | false => rfl
  | true => exact absurd ((isSuffixOf_append_eq hlen).mp h) hne

theorem unit_match {v ds : List Char} : v.isSuffixOf (ds ++ v) = true := by
  rw [List.isSuffixOf_iff_suffix]
  exact List.suffix_append ds v

theorem coinUnitsAux_no_match {i : Nat} {u : List Char} {us : List (List Char)}
    {amount : List Char} (h : u.isSuffixOf amount = false) :
    coinUnitsAux i (u :: us) amount = coinUnitsAux (i + 1) us amount := by
  simp only [coinUnitsAux]
  rw [if_neg (by simp [h])]

theorem findIdx?_no_dot {ds : List Char} (h : ∀ c ∈ ds, c.isDigit) :
    ds.findIdx? (fun c => c = '.') = none := by
  rw [List.findIdx?_eq_none_iff]
  intro c hc
  have hd := h c hc
  by_cases hcd : c = '.'
  · rw [hcd] at hd
    exact absurd hd (by decide)
  · simp [hcd]

theorem findIdx?_dot {ip fp : List Char} (h : ∀ c ∈ ip, c.isDigit) :
    (ip ++ '.' :: fp).findIdx? (fun c => c = '.') = some ip.length := by
  rw [List.findIdx?_append, findIdx?_no_dot h]
  simp [List.findIdx?_cons]

theorem coinUnitsAux_match_digits {i : Nat} {u : List Char} {us : List (List Char)}
    {ds : List Char} (hds : ∀ c ∈ ds, c.isDigit) :
    coinUnitsAux i (u :: us) (ds ++ u)
      = some (ds ++ List.replicate (27 + 3 * ((i : Int) - 3)).toNat '0') := by
  simp only [coinUnitsAux]
  rw [if_pos unit_match]
  have hbase : (ds ++ u).take ((ds ++ u).length - u.length) = ds := by
    rw [List.length_append, Nat.add_sub_cancel]
    exact List.take_left ds u
  rw [hbase, findIdx?_no_dot hds]

theorem coinUnitsAux_match_dec {i : Nat} {u : List Char} {us : List (List Char)}
    {ip fp : List Char} (hip : ∀ c ∈ ip, c.isDigit) :
    coinUnitsAux i (u :: us) ((ip ++ '.' :: fp) ++ u)
      = if (27 + 3 * ((i : Int) - 3) - (fp.length : Int)) < 0 then none
        else some (ip ++ fp
          ++ List.replicate (27 + 3 * ((i : Int) - 3) - (fp.length : Int)).toNat '0') := by
  simp only [coinUnitsAux]
  rw [if_pos unit_match]
  have hbase : ((ip ++ '.' :: fp) ++ u).take
      (((ip ++ '.' :: fp) ++ u).length - u.length) = ip ++ '.' :: fp := by
    rw [List.length_append, Nat.add_sub_cancel]
    exact List.take_left _ _
  rw [hbase, findIdx?_dot hip]
  have harith : (27 + 3 * ((i : Int) - 3)
      - (((ip ++ '.' :: fp).length : Int) - (ip.length : Int) - 1))
      = 27 + 3 * ((i : Int) - 3) - (fp.length : Int) := by
    push_cast [List.length_append, List.length_cons]
    ring
  have htake : (ip ++ '.' :: fp).take ip.length = ip := List.take_left ip ('.' :: fp)
  have hdrop : (ip ++ '.' :: fp).drop (ip.length + 1) = fp := by
    have hsplit : ip ++ '.' :: fp = (ip ++ ['.']) ++ fp := by simp
    have hl : (ip ++ ['.']).length = ip.length + 1 := by simp
    rw [hsplit, ← hl]
    exact List.drop_left _ _
  simp only [harith, htake, hdrop]

theorem coinUnitsAux_step_to_index :
    ∀ (us : List (List Char)) (i : Nat) (hi : i < us.length) (j : Nat) (ds : List Char),
      (∀ u ∈ us, u.length = (us.get ⟨i, hi⟩).length) →
      us.Nodup →
      coinUnitsAux j us (ds ++ us.get ⟨i, hi⟩)
        = coinUnitsAux (j + i) (us.drop i) (ds ++ us.get ⟨i, hi⟩) := by
  intro us
  induction us with
  | nil =>
    intro i hi
    exact absurd hi (by simp)
  | cons u t ih =>
    intro i hi j ds hlen hnd
    cases i with
    | zero => rfl
    | succ i' =>
      have hi' : i' < t.length := by simpa using hi
      have hget : (u :: t).get ⟨i' + 1, hi⟩ = t.get ⟨i', hi'⟩ := rfl
      rw [hget]
      rw [List.nodup_cons] at hnd
      have hne : u ≠ t.get ⟨i', hi'⟩ := by
        intro heq
        exact hnd.1 (heq ▸ List.get_mem t i' hi')
      have hlen1 : u.length = (t.get ⟨i', hi'⟩).length := by
        have hl := hlen u (List.mem_cons_self u t)
        rwa [hget] at hl
      rw [coinUnitsAux_no_match (unit_no_match hlen1 hne)]
      have hlen2 : ∀ v ∈ t, v.length = (t.get ⟨i', hi'⟩).length := by
        intro v hv
        have hl := hlen v (List.mem_cons_of_mem u hv)
        rwa [hget] at hl
      rw [ih i' hi' (j + 1) ds hlen2 hnd.2]
      show coinUnitsAux (j + 1 + i') (t.drop i') _ = coinUnitsAux (j + (i' + 1)) (t.drop i') _
      have hj : j + 1 + i' = j + (i' + 1) := by omega
      rw [hj]

theorem units_len_all {i : Nat} (hi : i < units.length) :
    ∀ u ∈ units, u.length = (units.get ⟨i, hi⟩).length := by
  have h2 : ∀ u ∈ units, u.length = 2 := by decide
  have hg2 : (units.get ⟨i, hi⟩).length = 2 := h2 _ (List.get_mem units i hi)
  intro u hu
  rw [h2 u hu, hg2]

theorem units_drop_cons {i : Nat} (hi : i < units.length) :
    units.drop i = units.get ⟨i, hi⟩ :: units.drop (i + 1) :=
  List.drop_eq_getElem_cons hi

theorem zeros_toNat (i : Nat) : (27 + 3 * ((i : Int) - 3)).toNat = 18 + 3 * i := by
  omega

theorem zeros_sub_toNat (i n : Nat) :
    (27 + 3 * ((i : Int) - 3) - (n : Int)).toNat = 18 + 3 * i - n := by
  omega

theorem zeros_sub_neg (i n : Nat) :
    (27 + 3 * ((i : Int) - 3) - (n : Int) < 0) ↔ 18 + 3 * i < n := by
  omega

/-- C10: for a non-empty digit sequence followed by the `i`-th unit suffix,
`coinUnits` appends exactly `27 + 3*(i-3)` zeros (e.g. 30 zeros for `SC`)
and reports no error; with a decimal point, the fractional digits are
folded into the base and the zero count reduced by their number, with an
error exactly when that count would become negative; an amount ending in
no listed unit is returned unchanged. -/
theorem claim_C10_coinUnits :
    (∀ (i : Nat) (hi : i < units.length) (ds : List Char),
        ds ≠ [] → (∀ c ∈ ds, c.isDigit) →
        coinUnits (ds ++ units.get ⟨i, hi⟩)
          = some (ds ++ List.replicate (27 + 3 * ((i : Int) - 3)).toNat '0'))
    ∧ (∀ (i : Nat) (hi : i < units.length) (ip fp : List Char),
        (∀ c ∈ ip, c.isDigit) → (∀ c ∈ fp, c.isDigit) →
        (fp.length ≤ (27 + 3 * ((i : Int) - 3)).toNat →
          coinUnits ((ip ++ '.' :: fp) ++ units.get ⟨i, hi⟩)
            = some (ip ++ fp
              ++ List.replicate ((27 + 3 * ((i : Int) - 3)).toNat - fp.length) '0'))
        ∧ ((27 + 3 * ((i : Int) - 3)).toNat < fp.length →
          coinUnits ((ip ++ '.' :: fp) ++ units.get ⟨i, hi⟩) = none))
    ∧ (∀ amount : List Char,
        (∀ u ∈ units, u.isSuffixOf amount = false) →
        coinUnits amount = some amount) := by
  refine ⟨?_, ?_, ?_⟩
  · intro i hi ds hne hds
    show coinUnitsAux 0 units (ds ++ units.get ⟨i, hi⟩) = _
    rw [coinUnitsAux_step_to_index units i hi 0 ds (units_len_all hi) (by decide),
      units_drop_cons hi, Nat.zero_add]
    exact coinUnitsAux_match_digits hds
  · intro i hi ip fp hip hfp
    constructor
    · intro hcond
      rw [zeros_toNat] at hcond
      show coinUnitsAux 0 units ((ip ++ '.' :: fp) ++ units.get ⟨i, hi⟩) = _
      rw [coinUnitsAux_step_to_index units i hi 0 _ (units_len_all hi) (by decide),
        units_drop_cons hi, Nat.zero_add, coinUnitsAux_match_dec hip,
        if_neg (by rw [zeros_sub_neg]; omega), zeros_sub_toNat, zeros_toNat]
    · intro hcond
      rw [zeros_toNat] at hcond
      show coinUnitsAux 0 units ((ip ++ '.' :: fp) ++ units.get ⟨i, hi⟩) = _
      rw [coinUnitsAux_step_to_index units i hi 0 _ (units_len_all hi) (by decide),
        units_drop_cons hi, Nat.zero_add, coinUnitsAux_match_dec hip,
        if_pos (by rw [zeros_sub_neg]; omega)]
  · intro amount h
    have h0 := h ['p','S'] (by simp [units])
    have h1 := h ['n','S'] (by simp [units])
    have h2 := h ['u','S'] (by simp [units])
    have h3 := h ['m','S'] (by simp [units])
    have h4 := h ['S','C'] (by simp [units])
    have h5 := h ['K','S'] (by simp [units])
    have h6 := h ['M','S'] (by simp [units])
    have h7 := h ['G','S'] (by simp [units])
    have h8 := h ['T','S'] (by simp [units])
    simp only [coinUnits, units]
    rw [coinUnitsAux_no_match h0, coinUnitsAux_no_match h1, coinUnitsAux_no_match h2,
      coinUnitsAux_no_match h3, coinUnitsAux_no_match h4, coinUnitsAux_no_match h5,
      coinUnitsAux_no_match h6, coinUnitsAux_no_match h7, coinUnitsAux_no_match h8]
    rfl

/-- Witness for C10 at concrete amounts: `1SC`, `1.23KS` and a unitless
amount. -/
theorem claim_C10_witness :
    coinUnits (['1'] ++ units.get ⟨4, by decide⟩)
      = some (['1'] ++ List.replicate (27 + 3 * (((4 : Nat) : Int) - 3)).toNat '0')
    ∧ coinUnits ((['1'] ++ '.' :: ['2','3']) ++ units.get ⟨5, by decide⟩)
      = some (['1'] ++ ['2','3']
          ++ List.replicate ((27 + 3 * (((5 : Nat) : Int) - 3)).toNat
            - (['2','3'] : List Char).length) '0')
    ∧ coinUnits ['4','2'] = some ['4','2'] := by
  refine ⟨?_, ?_, ?_⟩
  · exact claim_C10_coinUnits.1 4 (by decide) ['1'] (by decide) (by decide)
  · exact (claim_C10_coinUnits.2.1 5 (by decide) ['1'] ['2','3'] (by decide)
      (by decide)).1 (by decide)
  · exact claim_C10_coinUnits.2.2 ['4','2'] (by decide)

/-- Witness for C3 at a concrete run: after store, store, release,
release of the same identifier, fetching it returns `NotFound`. -/
theorem claim_C3_witness :
    (fetchSector
      (releaseSector
        (releaseSector
          (storeSector (storeSector (initState Nat Nat [1]) 0 7 0 true).2 0 8 0 true).2
          0 true).2
        0 true).2 0).1 = none := by
  obtain ⟨slot, -, -, -, -, -, -, -, hfetch⟩ :=
    claim_C3_dedup_refcount (initState Nat Nat [1]) 0 7 8 0 0 0 (by rfl) (by rfl)
  exact hfetch

end Sia
